import Mathlib

/-!
Verification development for the notes-application backend
(`backend/services.py`, `backend/summary_functions.py`, `backend/routes.py`).

Strings are modelled as `List Char`.  Each definition below is a shallow
embedding of one Python function or code path; the mapping to the source is
recorded in the doc comment of each definition.
-/

/-- The characters Python's `str.strip()` removes at the ends of an ASCII
string (space, tab, newline, carriage return, vertical tab, form feed). -/
def wsChar (c : Char) : Bool :=
  decide (c = ' ' ∨ c = '\t' ∨ c = '\n' ∨ c = '\r' ∨ c = '\x0b' ∨ c = '\x0c')

/-- Removes trailing characters satisfying `wsChar` (the right half of
Python's `str.strip()`). -/
def rstrip : List Char → List Char
  | [] => []
  | c :: t =>
    let r := rstrip t
    if r = [] ∧ wsChar c = true then [] else c :: r

/-- Python's `str.strip()`: drop leading and trailing whitespace. -/
def pstrip (l : List Char) : List Char := rstrip (l.dropWhile wsChar)

/-- `true` iff the list is empty or its last character is not whitespace
(the condition under which `rstrip` is the identity). -/
def lastNonWS : List Char → Bool
  | [] => true
  | [c] => !(wsChar c)
  | _ :: t => lastNonWS t

/-- Boolean "is prefix" on character lists (Python `str.startswith`). -/
def pfx : List Char → List Char → Bool
  | [], _ => true
  | _ :: _, [] => false
  | a :: as, b :: bs => if a = b then pfx as bs else false

/-- Boolean "occurs as a contiguous substring" (Python's `in` on `str`). -/
def hasSub (p : List Char) : List Char → Bool
  | [] => pfx p []
  | c :: t => pfx p (c :: t) || hasSub p t

/-- The backtick character. -/
def tick : Char := Char.ofNat 96

/-- The markdown fence `"```"` removed by `clean_json_string`. -/
def fence : List Char := [tick, tick, tick]

/-- The markdown fence `"```json"` removed by `clean_json_string`. -/
def fenceJson : List Char := [tick, tick, tick, 'j', 's', 'o', 'n']

/-- Python `str.replace('```json', '')`: remove every occurrence of
`"```json"`, scanning left to right over non-overlapping occurrences. -/
def replFenceJson : List Char → List Char
  | c1 :: c2 :: c3 :: c4 :: c5 :: c6 :: c7 :: rest =>
    if c1 = tick ∧ c2 = tick ∧ c3 = tick ∧ c4 = 'j' ∧ c5 = 's' ∧ c6 = 'o' ∧ c7 = 'n' then
      replFenceJson rest
    else c1 :: replFenceJson (c2 :: c3 :: c4 :: c5 :: c6 :: c7 :: rest)
  | l => l

/-- Python `str.replace('```', '')`: remove every occurrence of `"```"`,
scanning left to right over non-overlapping occurrences. -/
def replFence : List Char → List Char
  | c1 :: c2 :: c3 :: rest =>
    if c1 = tick ∧ c2 = tick ∧ c3 = tick then replFence rest
    else c1 :: replFence (c2 :: c3 :: rest)
  | l => l

/-- `services.clean_json_string`, first stage:
`json_str.strip().replace('```json', '').replace('```', '').strip()`. -/
def stripFences (l : List Char) : List Char :=
  pstrip (replFence (replFenceJson (pstrip l)))

/-- The escapes preserved by the backslash scan of `clean_json_string`:
`next_char in '"\\/nr'`. -/
def keepEsc (d : Char) : Bool :=
  decide (d = '"' ∨ d = '\\' ∨ d = '/' ∨ d = 'n' ∨ d = 'r')

/-- Membership in Python's `string.hexdigits`. -/
def hexDigit (c : Char) : Bool :=
  ("0123456789abcdefABCDEF".toList).contains c

/-- `fourHex l` holds when `l` starts with four hex digits: the condition
under which `clean_json_string` keeps a `\uXXXX` escape (the Python code
checks `i + 5 < n` and `all(c in string.hexdigits for c in s[i+2:i+6])`). -/
def fourHex : List Char → Bool
  | h1 :: h2 :: h3 :: h4 :: _ =>
    hexDigit h1 && hexDigit h2 && hexDigit h3 && hexDigit h4
  | _ => false

/-- The character-by-character backslash-repair loop of
`services.clean_json_string` (the `while i < n` loop): keep `\"`, `\\`,
`\/`, `\n`, `\r` and valid `\uXXXX`; double every other backslash and
re-process the following character. -/
def escScan : List Char → List Char
  | [] => []
  | c :: rest =>
    if c = '\\' then
      match rest with
      | [] => ['\\', '\\']
      | d :: rest2 =>
        if keepEsc d = true then '\\' :: d :: escScan rest2
        else if d = 'u' then
          match rest2 with
          | h1 :: h2 :: h3 :: h4 :: rest3 =>
            if (hexDigit h1 && hexDigit h2 && hexDigit h3 && hexDigit h4) = true then
              '\\' :: 'u' :: h1 :: h2 :: h3 :: h4 :: escScan rest3
            else '\\' :: '\\' :: escScan ('u' :: h1 :: h2 :: h3 :: h4 :: rest3)
          | [h1, h2, h3] => '\\' :: '\\' :: escScan ['u', h1, h2, h3]
          | [h1, h2] => '\\' :: '\\' :: escScan ['u', h1, h2]
          | [h1] => '\\' :: '\\' :: escScan ['u', h1]
          | [] => '\\' :: '\\' :: escScan ['u']
        else '\\' :: '\\' :: escScan (d :: rest2)
    else c :: escScan rest
termination_by l => l.length
decreasing_by all_goals simp only [List.length_cons, List.length_nil]; omega

/-- `services.clean_json_string`: markdown-fence removal followed by the
backslash-repair scan. -/
def clean_json_string (l : List Char) : List Char := escScan (stripFences l)

/-- Index of the first occurrence of the two-character sequence `[a, b]`
in a list (the closing delimiter search of a lazy `(.*?)` regex group). -/
def findClose (a b : Char) : List Char → Option Nat
  | [] => none
  | [_] => none
  | c :: d :: t =>
    if c = a ∧ d = b then some 0 else (findClose a b (d :: t)).map (· + 1)

/-- One `re.sub` pass for a pattern of the form `OPEN(.*?)CLOSE` where both
delimiters are two characters (`$$...$$`, `\[...\]`, `\(...\)`), with empty
content allowed and lazy matching: at each position, if the two-character
opener is present and the closer occurs later, replace the span with
`pre ++ content ++ post` and continue after the match; otherwise advance one
character (as the regex engine does after a failed match attempt). -/
def subPair (oa ob ca cb : Char) (pre post : List Char) : List Char → List Char
  | [] => []
  | c :: rest =>
    if c = oa then
      match rest with
      | [] => [c]
      | d :: rest2 =>
        if d = ob then
          match findClose ca cb rest2 with
          | some i =>
            pre ++ rest2.take i ++ post ++ subPair oa ob ca cb pre post (rest2.drop (i + 2))
          | none => c :: subPair oa ob ca cb pre post (d :: rest2)
        else c :: subPair oa ob ca cb pre post (d :: rest2)
    else c :: subPair oa ob ca cb pre post rest
termination_by l => l.length
decreasing_by all_goals simp only [List.length_drop, List.length_cons]; omega

/-- Index of the first occurrence of a single character. -/
def firstIdx (x : Char) : List Char → Option Nat
  | [] => none
  | c :: t => if c = x then some 0 else (firstIdx x t).map (· + 1)

/-- One `re.sub` pass for `\$([^$]+)\$`: a dollar, at least one non-dollar
character, then a dollar; the greedy `[^$]+` runs to the next dollar. -/
def subInlineDollar (pre post : List Char) : List Char → List Char
  | [] => []
  | c :: rest =>
    if c = '$' then
      match firstIdx '$' rest with
      | some i =>
        if i = 0 then c :: subInlineDollar pre post rest
        else pre ++ rest.take i ++ post ++ subInlineDollar pre post (rest.drop (i + 1))
      | none => c :: subInlineDollar pre post rest
    else c :: subInlineDollar pre post rest
termination_by l => l.length
decreasing_by all_goals simp only [List.length_drop, List.length_cons]; omega

/-- Replacement head for block math in `format_latex_for_tiptap`. -/
def divPre : List Char := "<div data-type=\"block-math\" data-latex=\"".toList

/-- Replacement tail for block math in `format_latex_for_tiptap`. -/
def divPost : List Char := "\"></div>".toList

/-- Replacement head for inline math in `format_latex_for_tiptap`. -/
def spanPre : List Char := "<span data-type=\"inline-math\" data-latex=\"".toList

/-- Replacement tail for inline math in `format_latex_for_tiptap`. -/
def spanPost : List Char := "\"></span>".toList

/-- `services.format_latex_for_tiptap`: the four `re.sub` passes in source
order — `$$...$$` to a block div, `\[...\]` to a block div, `$...$` to an
inline span, `\(...\)` to an inline span. -/
def format_latex_for_tiptap (l : List Char) : List Char :=
  subPair '\\' '(' '\\' ')' spanPre spanPost
    (subInlineDollar spanPre spanPost
      (subPair '\\' '[' '\\' ']' divPre divPost
        (subPair '$' '$' '$' '$' divPre divPost l)))

/-! ## Attachment summary job state machine (`routes.py`) -/

/-- The values taken by `Attachment.summary_status`. -/
inductive SStatus where
  | pending | processing | complete | failed | cancelled
deriving DecidableEq, Repr

/-- The persisted attachment state touched by the summary jobs:
`summary_status` and `summary`. -/
structure AttSt where
  status : SStatus
  summary : Option (List Char)
deriving DecidableEq, Repr

/-- The state of a freshly uploaded attachment (`summary_status='pending'`). -/
def attInit : AttSt := { status := SStatus.pending, summary := none }

/-- The fixed message stored by `cancel_summary`. -/
def cancelMsg : List Char := "Summary generation cancelled by user".toList

/-- Prefix of the message stored by the job's exception handler
(`f"Failed to generate summary: {str(e)[:100]}"`). -/
def failMsgPre : List Char := "Failed to generate summary: ".toList

/-- The atomic database writes performed by the request handlers and the two
background-job variants in `routes.py`; each constructor is one
`db.session.commit()` site. -/
inductive JobEvent where
  /-- upload-path job, first write: sets `processing` with no status check
      (`routes.py` 302-305). -/
  | uploadSetProcessing
  /-- upload-path job, success write: sets `complete` and the summary with no
      status check (`routes.py` 311-315). -/
  | uploadFinish (s : List Char)
  /-- upload-path job, exception handler: sets `failed` with a truncated
      message, no status check (`routes.py` 321-325). -/
  | uploadFail (e : List Char)
  /-- regenerate-path job, first write: sets `processing` only if the status
      is still `pending` (`routes.py` 413-416). -/
  | regenSetProcessing
  /-- regenerate-path job, success write: sets `complete` only if the status
      is still `processing` (`routes.py` 422-426). -/
  | regenFinish (s : List Char)
  /-- regenerate-path job, exception handler: sets `failed` with a truncated
      message, no status check (`routes.py` 432-436). -/
  | regenFail (e : List Char)
  /-- `cancel_summary`: sets `cancelled` with the fixed message, only from
      `pending` or `processing` (`routes.py` 469-472). -/
  | cancel
  /-- `regenerate_summary` handler body: resets to `pending` and clears the
      summary (`routes.py` 392-394). -/
  | regenReset

/-- One database write, exactly as the corresponding `routes.py` code path
performs it. -/
def stepAtt (a : AttSt) : JobEvent → AttSt
  | JobEvent.uploadSetProcessing => { a with status := SStatus.processing }
  | JobEvent.uploadFinish s => { status := SStatus.complete, summary := some s }
  | JobEvent.uploadFail e =>
      { status := SStatus.failed, summary := some (failMsgPre ++ e.take 100) }
  | JobEvent.regenSetProcessing =>
      if a.status = SStatus.pending then { a with status := SStatus.processing } else a
  | JobEvent.regenFinish s =>
      if a.status = SStatus.processing then
        { status := SStatus.complete, summary := some s }
      else a
  | JobEvent.regenFail e =>
      { status := SStatus.failed, summary := some (failMsgPre ++ e.take 100) }
  | JobEvent.cancel =>
      if a.status = SStatus.pending ∨ a.status = SStatus.processing then
        { status := SStatus.cancelled, summary := some cancelMsg }
      else a
  | JobEvent.regenReset => { status := SStatus.pending, summary := none }

/-- Runs an interleaving of job/handler writes against the persisted state. -/
def runAtt (a : AttSt) (evs : List JobEvent) : AttSt := evs.foldl stepAtt a

/-- The sequence of persisted statuses observed along an interleaving
(initial status included). -/
def statusTrace (a : AttSt) (evs : List JobEvent) : List SStatus :=
  (evs.scanl stepAtt a).map AttSt.status

/-- The status values actually written (accepted) by an event, given the
current state: empty when the event's guard rejects the write. -/
def writeOf (a : AttSt) : JobEvent → List SStatus
  | JobEvent.uploadSetProcessing => [SStatus.processing]
  | JobEvent.uploadFinish _ => [SStatus.complete]
  | JobEvent.uploadFail _ => [SStatus.failed]
  | JobEvent.regenSetProcessing =>
      if a.status = SStatus.pending then [SStatus.processing] else []
  | JobEvent.regenFinish _ =>
      if a.status = SStatus.processing then [SStatus.complete] else []
  | JobEvent.regenFail _ => [SStatus.failed]
  | JobEvent.cancel =>
      if a.status = SStatus.pending ∨ a.status = SStatus.processing then
        [SStatus.cancelled]
      else []
  | JobEvent.regenReset => [SStatus.pending]

/-- Runs an interleaving and also collects the log of accepted status
writes. -/
def runW (a : AttSt) (evs : List JobEvent) : AttSt × List SStatus :=
  evs.foldl (fun p e => (stepAtt p.1 e, p.2 ++ writeOf p.1 e)) (a, [])

/-- The terminal (`complete`/`failed`) writes in a write log. -/
def terminalWrites (l : List SStatus) : List SStatus :=
  l.filter (fun s => decide (s = SStatus.complete ∨ s = SStatus.failed))

/-- The transition relation asserted by the specification: status only
advances `pending→processing→{complete,failed}`, or moves from
`{pending, processing}` to `cancelled`. -/
def allowedTransition (x y : SStatus) : Bool :=
  decide ((x = SStatus.pending ∧ (y = SStatus.processing ∨ y = SStatus.cancelled)) ∨
          (x = SStatus.processing ∧
            (y = SStatus.complete ∨ y = SStatus.failed ∨ y = SStatus.cancelled)))

/-- Every adjacent pair of a status trace is either a stutter or an allowed
transition. -/
def traceAllowed : List SStatus → Bool
  | [] => true
  | [_] => true
  | x :: y :: t => (decide (x = y) || allowedTransition x y) && traceAllowed (y :: t)

/-! ## External-call outcomes and traces -/

/-- Outcome of one call into the external Gemini client: either an exception
(with its `str(e)` text) or a returned response text. -/
inductive AdapterOutcome where
  | exc : List Char → AdapterOutcome
  | ok : List Char → AdapterOutcome

/-- Externally observable calls made by the embedded functions:
`api_cooldown.wait_if_needed()`, `client.models.generate_content(...)`, and
`execute_google_search(...)`. -/
inductive CallEv where
  | cooldown | modelCall | searchCall
deriving DecidableEq, Repr

/-- `true` iff every `modelCall` in the trace is preceded (anywhere earlier)
by a `cooldown`; the first argument records whether a cooldown has already
been seen. -/
def allGated : Bool → List CallEv → Bool
  | _, [] => true
  | _, CallEv.cooldown :: t => allGated true t
  | seen, CallEv.modelCall :: t => seen && allGated seen t
  | seen, CallEv.searchCall :: t => allGated seen t

/-- Message returned by the summarize functions when `GEMINI_API_KEY` is
absent. -/
def keyMissingMsg : List Char := "Summary unavailable (API Key missing).".toList

/-- Prefix of the string the summarize functions return from their own
`except` clause (`f"Error generating summary: {str(e)}"`). -/
def errGenPre : List Char := "Error generating summary: ".toList

/-- `summary_functions.summarize_pdf`: cooldown, file read, model call; any
exception inside the `try` is converted to an untruncated
"Error generating summary: ..." string and returned (never raised).
The second component is the trace of external calls made. -/
def summarize_pdf (apiKey : Bool) (fileRead : Except (List Char) (List Char))
    (outcome : AdapterOutcome) : List Char × List CallEv :=
  if apiKey = false then (keyMissingMsg, [])
  else
    match fileRead with
    | Except.error e => (errGenPre ++ e, [CallEv.cooldown])
    | Except.ok _ =>
      match outcome with
      | AdapterOutcome.exc e => (errGenPre ++ e, [CallEv.cooldown, CallEv.modelCall])
      | AdapterOutcome.ok t => (pstrip t, [CallEv.cooldown, CallEv.modelCall])

/-- `summary_functions.summarize_image`: identical control flow to
`summarize_pdf` (the MIME-type selection only affects the request payload,
not the result shape or the call trace). -/
def summarize_image (apiKey : Bool) (fileRead : Except (List Char) (List Char))
    (outcome : AdapterOutcome) : List Char × List CallEv :=
  if apiKey = false then (keyMissingMsg, [])
  else
    match fileRead with
    | Except.error e => (errGenPre ++ e, [CallEv.cooldown])
    | Except.ok _ =>
      match outcome with
      | AdapterOutcome.exc e => (errGenPre ++ e, [CallEv.cooldown, CallEv.modelCall])
      | AdapterOutcome.ok t => (pstrip t, [CallEv.cooldown, CallEv.modelCall])

/-- `summary_functions.generate_attachment_summary`: dispatch on filetype. -/
def generate_attachment_summary (filetype : List Char) (apiKey : Bool)
    (fileRead : Except (List Char) (List Char)) (outcome : AdapterOutcome) :
    List Char × List CallEv :=
  if filetype = "pdf".toList then summarize_pdf apiKey fileRead outcome
  else if filetype = "image".toList then summarize_image apiKey fileRead outcome
  else ("Summary not available for this file type.".toList, [])

/-! ## Chat pipeline (`services.py`) -/

/-- A parsed model response object as consumed by `chat_with_ai`
(`response_text`, optional `updated_html`, `requires_confirmation`). -/
structure ParsedResponse where
  response_text : List Char
  updated_html : Option (List Char)
  requires_confirmation : Bool
deriving DecidableEq

/-- The result dictionary returned by `chat_with_ai`. -/
structure ChatResult where
  response_text : List Char
  updated_html : Option (List Char)
  requires_confirmation : Bool
deriving DecidableEq

/-- The decision dictionary parsed in the first pass of the first
`chat_with_ai` definition (`action` / `tool` / `query`, each possibly
absent). -/
structure DecisionDict where
  action : Option (List Char)
  tool : Option (List Char)
  query : Option (List Char)

/-- `"Error: Gemini API Key not configured."`. -/
def keyErrMsg : List Char := "Error: Gemini API Key not configured.".toList

/-- Prefix of the outer exception handler's reply
(`f"Sorry, I encountered an error: {str(e)}"`). -/
def chatExcPre : List Char := "Sorry, I encountered an error: ".toList

/-- Reply used by the second `chat_with_ai` definition when JSON parsing of
the model response fails. -/
def parseErrMsg : List Char := "I encountered an error processing the response.".toList

/-- ASCII lowering, as applied by `str.lower()` to ASCII text. -/
def toLowerAscii (c : Char) : Char :=
  if 'A' ≤ c ∧ c ≤ 'Z' then Char.ofNat (c.toNat + 32) else c

/-- Second pass of the first (two-pass) `chat_with_ai` definition: the final
`generate_content` call, fence stripping + `json.loads`, LaTeX rewriting of
`updated_html`, and the "I searched for information." prefixing; any
exception is caught by the outer handler and becomes an error-flavored
result with the original `note_content` and `requires_confirmation = True`. -/
def v1Second (note_content : List Char) (mentioned : Bool)
    (second : AdapterOutcome)
    (parse2 : List Char → Except (List Char) ParsedResponse) : ChatResult :=
  match second with
  | AdapterOutcome.exc e =>
    { response_text := chatExcPre ++ e, updated_html := some note_content,
      requires_confirmation := true }
  | AdapterOutcome.ok raw2 =>
    match parse2 (stripFences raw2) with
    | Except.error e =>
      { response_text := chatExcPre ++ e, updated_html := some note_content,
        requires_confirmation := true }
    | Except.ok p =>
      let rt :=
        if mentioned = true ∧
            hasSub ("searched for".toList) (p.response_text.map toLowerAscii) = false then
          "I searched for information. ".toList ++ p.response_text
        else p.response_text
      { response_text := rt,
        updated_html := p.updated_html.map format_latex_for_tiptap,
        requires_confirmation := p.requires_confirmation }

/-- The FIRST `chat_with_ai` definition in `services.py` (lines 84-249):
two-pass, search-capable.  `first`/`second` are the outcomes of the two
`generate_content` calls, `parse1`/`parse2` stand for `json.loads` on the
fence-stripped text (an `Except.error` is a raised `JSONDecodeError`,
caught only by the outer handler), and `searchFn` is
`execute_google_search` (which catches its own errors and always returns a
string).  The second component is the trace of external calls. -/
def chat_with_ai_v1 (apiKey : Bool) (note_content : List Char)
    (first : AdapterOutcome)
    (parse1 : List Char → Except (List Char) DecisionDict)
    (searchFn : List Char → List Char)
    (second : AdapterOutcome)
    (parse2 : List Char → Except (List Char) ParsedResponse) :
    ChatResult × List CallEv :=
  if apiKey = false then
    ({ response_text := keyErrMsg, updated_html := some note_content,
       requires_confirmation := true }, [])
  else
    match first with
    | AdapterOutcome.exc e =>
      ({ response_text := chatExcPre ++ e, updated_html := some note_content,
         requires_confirmation := true }, [CallEv.modelCall])
    | AdapterOutcome.ok raw1 =>
      match parse1 (stripFences raw1) with
      | Except.error e =>
        ({ response_text := chatExcPre ++ e, updated_html := some note_content,
           requires_confirmation := true }, [CallEv.modelCall])
      | Except.ok d =>
        if d.action = some ("tool_use".toList) ∧ d.tool = some ("google_search".toList) then
          match d.query with
          | some q =>
            let _results := searchFn q
            (v1Second note_content true second parse2,
             [CallEv.modelCall, CallEv.searchCall, CallEv.modelCall])
          | none =>
            (v1Second note_content true second parse2,
             [CallEv.modelCall, CallEv.modelCall])
        else
          (v1Second note_content false second parse2,
           [CallEv.modelCall, CallEv.modelCall])

/-- The SECOND `chat_with_ai` definition in `services.py` (lines 418-510):
single-pass.  `outcome` is the one `generate_content` call's outcome and
`parse` stands for `json.loads(..., strict=False)` applied to the
`clean_json_string`-repaired text (`none` = `JSONDecodeError`, handled by
the inner `except json.JSONDecodeError` clause). -/
def chat_with_ai_v2 (apiKey : Bool) (note_content : List Char)
    (outcome : AdapterOutcome)
    (parse : List Char → Option ParsedResponse) : ChatResult × List CallEv :=
  if apiKey = false then
    ({ response_text := keyErrMsg, updated_html := some note_content,
       requires_confirmation := true }, [])
  else
    match outcome with
    | AdapterOutcome.exc e =>
      ({ response_text := chatExcPre ++ e, updated_html := some note_content,
         requires_confirmation := true }, [CallEv.modelCall])
    | AdapterOutcome.ok raw =>
      match parse (clean_json_string raw) with
      | none =>
        ({ response_text := parseErrMsg, updated_html := some note_content,
           requires_confirmation := false }, [CallEv.modelCall])
      | some p =>
        ({ response_text := p.response_text,
           updated_html := p.updated_html.map format_latex_for_tiptap,
           requires_confirmation := p.requires_confirmation }, [CallEv.modelCall])

/-- The two module-level `def chat_with_ai` statements of `services.py`. -/
inductive ChatImpl where
  | v1 | v2
deriving DecidableEq, Repr

/-- The module-level bindings of the name `chat_with_ai`, in source order
(line 84 then line 418). -/
def servicesBindings : List (List Char × ChatImpl) :=
  [("chat_with_ai".toList, ChatImpl.v1), ("chat_with_ai".toList, ChatImpl.v2)]

/-- Python module loading: each `def` statement rebinds the name, so the
last binding wins. -/
def lookupBinding (n : List Char) : Option ChatImpl :=
  servicesBindings.foldl (fun acc p => if p.1 = n then some p.2 else acc) none

/-- An invocation of `services.chat_with_ai` after module load: dispatches
through the module's final binding of the name. -/
def moduleChat (apiKey : Bool) (note_content : List Char)
    (first : AdapterOutcome)
    (parse1 : List Char → Except (List Char) DecisionDict)
    (searchFn : List Char → List Char)
    (second : AdapterOutcome)
    (parse2 : List Char → Except (List Char) ParsedResponse)
    (parseV2 : List Char → Option ParsedResponse) : ChatResult × List CallEv :=
  match lookupBinding ("chat_with_ai".toList) with
  | some ChatImpl.v1 =>
    chat_with_ai_v1 apiKey note_content first parse1 searchFn second parse2
  | some ChatImpl.v2 => chat_with_ai_v2 apiKey note_content first parseV2
  | none => ({ response_text := [], updated_html := none, requires_confirmation := false }, [])

/-! ## Cooldown gate (`summary_functions.APICooldownManager`) -/

/-- One execution of `wait_if_needed` while holding the lock: `enterTime` is
the first `time.time()` read, `finishTime` the second one (recorded into
`_last_call_time` just before the lock is released and the call returns). -/
structure GateCall where
  enterTime : ℚ
  finishTime : ℚ

/-- `APICooldownManager.__init__` default `min_delay_seconds=2.5`. -/
def min_delay_default : ℚ := 5 / 2

/-- What one `wait_if_needed` body guarantees, given the stored
`_last_call_time` value `last`: the lock serializes calls (`last ≤
enterTime` since the previous write happened before this read, on a
monotone clock), and if `elapsed = enterTime - last < d` the call sleeps
`d - elapsed` before the second clock read, so `finishTime` is at least
`enterTime` plus the slept amount. -/
def gateStep (d last : ℚ) (c : GateCall) : Prop :=
  last ≤ c.enterTime ∧
  (if c.enterTime - last < d then
    c.enterTime + (d - (c.enterTime - last)) ≤ c.finishTime
  else c.enterTime ≤ c.finishTime)

/-- A lock-serialized sequence of `wait_if_needed` executions starting from
stored timestamp `last`; each call's recorded `finishTime` becomes the next
call's `last`. -/
def gateRun (d : ℚ) : ℚ → List GateCall → Prop
  | _, [] => True
  | last, c :: rest => gateStep d last c ∧ gateRun d c.finishTime rest

/-! ## Concrete inputs used by counterexamples -/

/-- A summary text produced by a successful model call. -/
def okSummary : List Char := "a short factual summary".toList

/-- The stale (first) regenerate cycle's summary text. -/
def staleSummary : List Char := "stale first-cycle summary".toList

/-- The fresh (second) regenerate cycle's summary text. -/
def freshSummary : List Char := "fresh second-cycle summary".toList

/-- The interleaving for C1/C2: upload creates the job (`pending`), the user
cancels, then the upload-path background job runs to success. -/
def c1Events : List JobEvent :=
  [JobEvent.cancel, JobEvent.uploadSetProcessing, JobEvent.uploadFinish okSummary]

/-- The interleaving for C2: the upload-path job reaches `processing`, the
user cancels, then the in-flight call succeeds and the job writes back. -/
def c2Events : List JobEvent :=
  [JobEvent.uploadSetProcessing, JobEvent.cancel, JobEvent.uploadFinish okSummary]

/-- The C8 counterexample interleaving: first regenerate cycle's job A
reaches `processing`; second regenerate resets to `pending`; the second
cycle's job B reaches `processing`; A's stale success write lands (guard
sees `processing` and accepts); B's own write is then suppressed. -/
def c8Events : List JobEvent :=
  [JobEvent.regenSetProcessing, JobEvent.regenReset, JobEvent.regenSetProcessing,
   JobEvent.regenFinish staleSummary, JobEvent.regenFinish freshSummary]

/-- The C4 counterexample input `\[a\[b\]c\]`. -/
def c4Input : List Char := ['\\', '[', 'a', '\\', '[', 'b', '\\', ']', 'c', '\\', ']']

/-- A long adapter error text (more than 100 characters), for C3. -/
def c3ErrText : List Char :=
  ("ServiceError: quota exceeded and a very long diagnostic message that " ++
   "keeps going well past the one-hundred-character truncation bound").toList

/-- A raw model response that is not valid JSON, for C6. -/
def c6Raw : List Char := "this is not json".toList

/-- A raw model response used in the C9 counterexample. -/
def c9Raw : List Char := "some model reply".toList

/-- Two concrete lock-serialized gate calls: the first from timestamp 0
(must sleep the full default delay), the second entering immediately after
the first returns. -/
def c7Calls : List GateCall :=
  [{ enterTime := 0, finishTime := 5 / 2 }, { enterTime := 5 / 2, finishTime := 5 }]

/-! ## Helper lemmas about the repair functions -/

/-- A list passing `fourHex` starts with four hex digits. -/
lemma fourHex_shape (l : List Char) (h : fourHex l = true) :
    ∃ h1 h2 h3 h4 t, l = h1 :: h2 :: h3 :: h4 :: t ∧
      (hexDigit h1 && hexDigit h2 && hexDigit h3 && hexDigit h4) = true := by
  match l with
  | h1 :: h2 :: h3 :: h4 :: t => exact ⟨h1, h2, h3, h4, t, rfl, h⟩
  | [] => simp [fourHex] at h
  | [a] => simp [fourHex] at h
  | [a, b] => simp [fourHex] at h
  | [a, b, c] => simp [fourHex] at h

/-- Unfolding: the empty input. -/
lemma escScan_nil : escScan [] = [] := by rw [escScan.eq_def]

/-- Unfolding: an ordinary (non-backslash) character is copied. -/
lemma escScan_plain (c : Char) (rest : List Char) (h : c ≠ '\\') :
    escScan (c :: rest) = c :: escScan rest := by
  rw [escScan.eq_def]; simp [h]

/-- Unfolding: a trailing backslash is doubled. -/
lemma escScan_bs_nil : escScan ['\\'] = ['\\', '\\'] := by
  rw [escScan.eq_def]; simp

/-- Unfolding: a preserved two-character escape. -/
lemma escScan_keep (d : Char) (rest2 : List Char) (h : keepEsc d = true) :
    escScan ('\\' :: d :: rest2) = '\\' :: d :: escScan rest2 := by
  rw [escScan.eq_def]; simp [h]

/-- Unfolding: a preserved `\uXXXX` escape. -/
lemma escScan_uhex (h1 h2 h3 h4 : Char) (rest3 : List Char)
    (hh : (hexDigit h1 && hexDigit h2 && hexDigit h3 && hexDigit h4) = true) :
    escScan ('\\' :: 'u' :: h1 :: h2 :: h3 :: h4 :: rest3) =
      '\\' :: 'u' :: h1 :: h2 :: h3 :: h4 :: escScan rest3 := by
  rw [escScan.eq_def]; simp [hh, keepEsc]

/-- Unfolding: every other backslash is doubled and the next character is
re-processed. -/
lemma escScan_double (d : Char) (rest2 : List Char) (h1 : keepEsc d = false)
    (h2 : d = 'u' → fourHex rest2 = false) :
    escScan ('\\' :: d :: rest2) = '\\' :: '\\' :: escScan (d :: rest2) := by
  by_cases hu : d = 'u'
  · subst hu
    have hfh := h2 rfl
    rw [escScan.eq_def]
    match rest2, hfh with
    | [], _ => simp [h1]
    | [a], _ => simp [h1]
    | [a, b], _ => simp [h1]
    | [a, b, c], _ => simp [h1]
    | a :: b :: c :: e :: t, hfh =>
      simp only [fourHex] at hfh
      simp [h1, hfh]
  · rw [escScan.eq_def]; simp [h1, hu]

/-- The scan never changes the first character. -/
lemma escScan_headQ : ∀ l : List Char, (escScan l).head? = l.head? := by
  intro l
  match l with
  | [] => simp [escScan_nil]
  | c :: rest =>
    by_cases hc : c = '\\'
    · subst hc
      match rest with
      | [] => rw [escScan_bs_nil]; rfl
      | d :: rest2 =>
        by_cases hk : keepEsc d = true
        · rw [escScan_keep d rest2 hk]; rfl
        · have hk' : keepEsc d = false := by
            cases hkk : keepEsc d with
            | true => exact absurd hkk hk
            | false => rfl
          by_cases hu : d = 'u'
          · subst hu
            cases hfh : fourHex rest2 with
            | true =>
              obtain ⟨h1, h2, h3, h4, t, rfl, hhex⟩ := fourHex_shape rest2 hfh
              rw [escScan_uhex h1 h2 h3 h4 t hhex]; rfl
            | false =>
              rw [escScan_double 'u' rest2 hk' (fun _ => hfh)]; rfl
          · rw [escScan_double d rest2 hk' (fun h => absurd h hu)]; rfl
    · rw [escScan_plain c rest hc]; rfl

/-- The scan of a non-empty list is non-empty. -/
lemma escScan_ne_nil (l : List Char) (h : l ≠ []) : escScan l ≠ [] := by
  intro he
  have h1 := escScan_headQ l
  rw [he] at h1
  cases l with
  | nil => exact h rfl
  | cons c t => simp at h1

/-- The backslash-repair scan is idempotent. -/
lemma escScan_idem : ∀ l : List Char, escScan (escScan l) = escScan l := by
  have main : ∀ n, ∀ l : List Char, l.length ≤ n → escScan (escScan l) = escScan l := by
    intro n
    induction n with
    | zero =>
      intro l hl
      have hnil : l = [] := by
        cases l with
        | nil => rfl
        | cons c t => simp at hl
      subst hnil; simp [escScan_nil]
    | succ n ih =>
      intro l hl
      match l with
      | [] => simp [escScan_nil]
      | c :: rest =>
        by_cases hc : c = '\\'
        · subst hc
          match rest with
          | [] =>
            rw [escScan_bs_nil, escScan_keep '\\' [] (by decide), escScan_nil]
          | d :: rest2 =>
            by_cases hk : keepEsc d = true
            · rw [escScan_keep d rest2 hk, escScan_keep d _ hk,
                ih rest2 (by simp at hl; omega)]
            · have hk' : keepEsc d = false := by
                cases hkk : keepEsc d with
                | true => exact absurd hkk hk
                | false => rfl
              by_cases hu : d = 'u'
              · subst hu
                cases hfh : fourHex rest2 with
                | true =>
                  obtain ⟨h1, h2, h3, h4, t, rfl, hhex⟩ := fourHex_shape rest2 hfh
                  rw [escScan_uhex h1 h2 h3 h4 t hhex,
                    escScan_uhex h1 h2 h3 h4 (escScan t) hhex,
                    ih t (by simp at hl; omega)]
                | false =>
                  rw [escScan_double 'u' rest2 hk' (fun _ => hfh),
                    escScan_keep '\\' _ (by decide),
                    ih ('u' :: rest2) (by simp at hl ⊢; omega)]
              · rw [escScan_double d rest2 hk' (fun h => absurd h hu),
                  escScan_keep '\\' _ (by decide),
                  ih (d :: rest2) (by simp at hl ⊢; omega)]
        · rw [escScan_plain c rest hc, escScan_plain c _ hc, ih rest (by simp at hl; omega)]
  intro l
  exact main l.length l le_rfl

/-- Peeling a cons off `lastNonWS` when the tail is non-empty. -/
lemma lastNonWS_cons (c : Char) (X : List Char) (h : X ≠ []) :
    lastNonWS (c :: X) = lastNonWS X := by
  cases X with
  | nil => exact absurd rfl h
  | cons a t => rfl

/-- The scan preserves "the last character is not whitespace". -/
lemma escScan_lastNonWS : ∀ l : List Char, lastNonWS l = true →
    lastNonWS (escScan l) = true := by
  have main : ∀ n, ∀ l : List Char, l.length ≤ n → lastNonWS l = true →
      lastNonWS (escScan l) = true := by
    intro n
    induction n with
    | zero =>
      intro l hl _
      have hnil : l = [] := by
        cases l with
        | nil => rfl
        | cons c t => simp at hl
      subst hnil; simp [escScan_nil, lastNonWS]
    | succ n ih =>
      intro l hl hlast
      match l with
      | [] => simp [escScan_nil, lastNonWS]
      | c :: rest =>
        by_cases hc : c = '\\'
        · subst hc
          match rest with
          | [] => rw [escScan_bs_nil]; decide
          | d :: rest2 =>
            by_cases hk : keepEsc d = true
            · rw [escScan_keep d rest2 hk]
              cases rest2 with
              | nil =>
                rw [escScan_nil]
                rw [lastNonWS_cons '\\' [d] (by simp)]
                rw [lastNonWS_cons '\\' [d] (by simp)] at hlast
                exact hlast
              | cons a s =>
                have hne : escScan (a :: s) ≠ [] := escScan_ne_nil _ (by simp)
                rw [lastNonWS_cons '\\' _ (by simp), lastNonWS_cons d _ hne]
                rw [lastNonWS_cons '\\' _ (by simp), lastNonWS_cons d _ (by simp)] at hlast
                exact ih (a :: s) (by simp at hl ⊢; omega) hlast
            · have hk' : keepEsc d = false := by
                cases hkk : keepEsc d with
                | true => exact absurd hkk hk
                | false => rfl
              by_cases hu : d = 'u'
              · subst hu
                cases hfh : fourHex rest2 with
                | true =>
                  obtain ⟨h1, h2, h3, h4, t, rfl, hhex⟩ := fourHex_shape rest2 hfh
                  rw [escScan_uhex h1 h2 h3 h4 t hhex]
                  cases t with
                  | nil =>
                    rw [escScan_nil]
                    rw [lastNonWS_cons '\\' _ (by simp), lastNonWS_cons 'u' _ (by simp),
                      lastNonWS_cons h1 _ (by simp), lastNonWS_cons h2 _ (by simp),
                      lastNonWS_cons h3 _ (by simp)]
                    rw [lastNonWS_cons '\\' _ (by simp), lastNonWS_cons 'u' _ (by simp),
                      lastNonWS_cons h1 _ (by simp), lastNonWS_cons h2 _ (by simp),
                      lastNonWS_cons h3 _ (by simp)] at hlast
                    exact hlast
                  | cons a s =>
                    have hne : escScan (a :: s) ≠ [] := escScan_ne_nil _ (by simp)
                    rw [lastNonWS_cons '\\' _ (by simp), lastNonWS_cons 'u' _ (by simp),
                      lastNonWS_cons h1 _ (by simp), lastNonWS_cons h2 _ (by simp),
                      lastNonWS_cons h3 _ (by simp), lastNonWS_cons h4 _ hne]
                    rw [lastNonWS_cons '\\' _ (by simp), lastNonWS_cons 'u' _ (by simp),
                      lastNonWS_cons h1 _ (by simp), lastNonWS_cons h2 _ (by simp),
                      lastNonWS_cons h3 _ (by simp), lastNonWS_cons h4 _ (by simp)] at hlast
                    exact ih (a :: s) (by simp at hl ⊢; omega) hlast
                | false =>
                  rw [escScan_double 'u' rest2 hk' (fun _ => hfh)]
                  have hne : escScan ('u' :: rest2) ≠ [] := escScan_ne_nil _ (by simp)
                  rw [lastNonWS_cons '\\' _ (by simp), lastNonWS_cons '\\' _ hne]
                  rw [lastNonWS_cons '\\' _ (by simp)] at hlast
                  exact ih ('u' :: rest2) (by simp at hl ⊢; omega) hlast
              · rw [escScan_double d rest2 hk' (fun h => absurd h hu)]
                have hne : escScan (d :: rest2) ≠ [] := escScan_ne_nil _ (by simp)
                rw [lastNonWS_cons '\\' _ (by simp), lastNonWS_cons '\\' _ hne]
                rw [lastNonWS_cons '\\' _ (by simp)] at hlast
                exact ih (d :: rest2) (by simp at hl ⊢; omega) hlast
        · rw [escScan_plain c rest hc]
          cases rest with
          | nil => rw [escScan_nil]; exact hlast
          | cons a s =>
            have hne : escScan (a :: s) ≠ [] := escScan_ne_nil _ (by simp)
            rw [lastNonWS_cons c _ hne]
            rw [lastNonWS_cons c _ (by simp)] at hlast
            exact ih (a :: s) (by simp at hl ⊢; omega) hlast
  intro l
  exact main l.length l le_rfl

/-- Unfolding `rstrip` at a cons. -/
lemma rstrip_cons (c : Char) (t : List Char) :
    rstrip (c :: t) = if rstrip t = [] ∧ wsChar c = true then [] else c :: rstrip t := rfl

/-- `rstrip` output never ends in whitespace. -/
lemma rstrip_lastNonWS : ∀ l : List Char, lastNonWS (rstrip l) = true := by
  intro l
  induction l with
  | nil => rfl
  | cons c t ih =>
    by_cases h : rstrip t = [] ∧ wsChar c = true
    · simp [rstrip, h, lastNonWS]
    · have he : rstrip (c :: t) = c :: rstrip t := by simp [rstrip, h]
      rw [he]
      cases hr : rstrip t with
      | nil =>
        have hcw : wsChar c = false := by
          cases hw : wsChar c with
          | true => exact absurd ⟨hr, hw⟩ h
          | false => rfl
        simp [lastNonWS, hcw]
      | cons a s =>
        rw [lastNonWS_cons c _ (by simp)]
        rw [hr] at ih
        exact ih

/-- A list not ending in whitespace is unchanged by `rstrip`. -/
lemma rstrip_self (l : List Char) (h : lastNonWS l = true) : rstrip l = l := by
  induction l with
  | nil => rfl
  | cons c t ih =>
    cases t with
    | nil =>
      have hcw : wsChar c = false := by
        simp [lastNonWS] at h
        cases hw : wsChar c with
        | true => rw [hw] at h; simp at h
        | false => rfl
      simp [rstrip, hcw]
    | cons a s =>
      rw [lastNonWS_cons c _ (by simp)] at h
      have ht := ih h
      rw [rstrip_cons, ht]
      simp

/-- The head of a `dropWhile wsChar` output is not whitespace. -/
lemma head_dropWhile_not (l : List Char) (c : Char)
    (h : (List.dropWhile wsChar l).head? = some c) : wsChar c = false := by
  induction l with
  | nil => simp [List.dropWhile] at h
  | cons a t ih =>
    cases hw : wsChar a with
    | true => rw [List.dropWhile, hw] at h; exact ih h
    | false =>
      rw [List.dropWhile, hw] at h
      simp at h
      rw [← h]; exact hw

/-- A list whose head is not whitespace is unchanged by `dropWhile wsChar`. -/
lemma dropWhile_not_head_self (l : List Char)
    (h : ∀ c, l.head? = some c → wsChar c = false) : List.dropWhile wsChar l = l := by
  cases l with
  | nil => rfl
  | cons a t => rw [List.dropWhile, h a rfl]

/-- `rstrip` is the identity or preserves the head. -/
lemma rstrip_headQ : ∀ m : List Char, rstrip m = [] ∨ (rstrip m).head? = m.head? := by
  intro m
  cases m with
  | nil => left; rfl
  | cons a t =>
    by_cases h : rstrip t = [] ∧ wsChar a = true
    · left; simp [rstrip, h]
    · right; simp [rstrip, h]

/-- The head of a `pstrip` output is not whitespace. -/
lemma pstrip_head_not_ws (l : List Char) (c : Char)
    (h : (pstrip l).head? = some c) : wsChar c = false := by
  unfold pstrip at h
  rcases rstrip_headQ (l.dropWhile wsChar) with he | hh
  · rw [he] at h; simp at h
  · rw [hh] at h; exact head_dropWhile_not l c h

/-- The last character of a `pstrip` output is not whitespace. -/
lemma pstrip_lastNonWS (l : List Char) : lastNonWS (pstrip l) = true :=
  rstrip_lastNonWS _

/-- A list with non-whitespace head and tail is a `pstrip` fixpoint. -/
lemma pstrip_fix (v : List Char)
    (hhead : ∀ c, v.head? = some c → wsChar c = false)
    (hlast : lastNonWS v = true) : pstrip v = v := by
  unfold pstrip
  rw [dropWhile_not_head_self v hhead, rstrip_self _ hlast]

/-- `pstrip` is a no-op on the scan of a stripped string. -/
lemma pstrip_escScan_pstrip (m : List Char) :
    pstrip (escScan (pstrip m)) = escScan (pstrip m) := by
  apply pstrip_fix
  · intro c hc
    rw [escScan_headQ] at hc
    exact pstrip_head_not_ws m c hc
  · exact escScan_lastNonWS _ (pstrip_lastNonWS m)

/-- `pfx p l` means `l` extends `p`. -/
lemma pfx_iff_append : ∀ p l : List Char, pfx p l = true ↔ ∃ s, l = p ++ s := by
  intro p
  induction p with
  | nil => intro l; simp [pfx]
  | cons x xs ih =>
    intro l
    cases l with
    | nil => simp [pfx]
    | cons y ys =>
      by_cases hxy : x = y
      · subst hxy
        rw [pfx, if_pos rfl, ih ys]
        simp
      · rw [pfx, if_neg hxy]
        constructor
        · intro h; simp at h
        · rintro ⟨s, hs⟩
          rw [List.cons_append] at hs
          injection hs with h1 h2
          exact absurd h1.symm hxy

/-- Transitivity of the prefix test. -/
lemma pfx_trans (p a b : List Char) (h1 : pfx p a = true) (h2 : pfx a b = true) :
    pfx p b = true := by
  rw [pfx_iff_append] at h1 h2 ⊢
  obtain ⟨s, rfl⟩ := h1
  obtain ⟨r, rfl⟩ := h2
  exact ⟨s ++ r, by rw [List.append_assoc]⟩

/-- A prefix test for a longer pattern implies one for its own prefix. -/
lemma pfx_append_left (p q l : List Char) (h : pfx (p ++ q) l = true) :
    pfx p l = true := by
  rw [pfx_iff_append] at h ⊢
  obtain ⟨s, rfl⟩ := h
  exact ⟨q ++ s, by rw [List.append_assoc]⟩

/-- `pfx` for a singleton pattern is a head test. -/
lemma pfx_single (x : Char) (m : List Char) : pfx [x] m = true ↔ m.head? = some x := by
  cases m with
  | nil => simp [pfx]
  | cons b t =>
    by_cases hxb : x = b
    · subst hxb; simp [pfx]
    · rw [pfx, if_neg hxb]; simp [Ne.symm hxb]

/-- `pfx` for a two-character pattern determines the head. -/
lemma pfx_two_head (a b : Char) (m : List Char) (h : pfx [a, b] m = true) :
    m.head? = some a := by
  cases m with
  | nil => simp [pfx] at h
  | cons y t =>
    by_cases hay : a = y
    · simp [hay]
    · rw [pfx, if_neg hay] at h; simp at h

/-- `rstrip` keeps a prefix of its input. -/
lemma rstrip_pfx : ∀ l : List Char, pfx (rstrip l) l = true := by
  intro l
  induction l with
  | nil => rfl
  | cons c t ih =>
    by_cases h : rstrip t = [] ∧ wsChar c = true
    · simp [rstrip, h, pfx]
    · have he : rstrip (c :: t) = c :: rstrip t := by simp [rstrip, h]
      rw [he, pfx, if_pos rfl]
      exact ih

/-- Splitting a substring test at a cons. -/
lemma hasSub_cons (p : List Char) (c : Char) (t : List Char) :
    hasSub p (c :: t) = (pfx p (c :: t) || hasSub p t) := rfl

/-- Splitting a negative substring test at a cons. -/
lemma hasSub_cons_false (p : List Char) (c : Char) (t : List Char) :
    hasSub p (c :: t) = false ↔ pfx p (c :: t) = false ∧ hasSub p t = false := by
  rw [hasSub_cons]
  exact Bool.or_eq_false_iff

/-- The fence does not occur in the empty string. -/
lemma hasSub_fence_nil : hasSub fence [] = false := by decide

/-- A fence occurrence survives undoing `dropWhile`. -/
lemma hasSub_mono_dropWhile (l : List Char)
    (h : hasSub fence (List.dropWhile wsChar l) = true) : hasSub fence l = true := by
  induction l with
  | nil => simp [List.dropWhile] at h; exact h
  | cons a t ih =>
    cases hw : wsChar a with
    | true =>
      rw [List.dropWhile, hw] at h
      rw [hasSub_cons, ih h, Bool.or_true]
    | false =>
      rw [List.dropWhile, hw] at h
      exact h

/-- A fence occurrence survives undoing `rstrip`. -/
lemma hasSub_mono_rstrip (l : List Char)
    (h : hasSub fence (rstrip l) = true) : hasSub fence l = true := by
  induction l with
  | nil => exact h
  | cons c t ih =>
    by_cases hc : rstrip t = [] ∧ wsChar c = true
    · have he : rstrip (c :: t) = [] := by simp [rstrip, hc]
      rw [he, hasSub_fence_nil] at h
      simp at h
    · have he : rstrip (c :: t) = c :: rstrip t := by simp [rstrip, hc]
      rw [he, hasSub_cons] at h
      rcases Bool.or_eq_true_iff.mp h with h1 | h2
      · have hstep : pfx (c :: rstrip t) (c :: t) = true := by
          rw [pfx, if_pos rfl]; exact rstrip_pfx t
        rw [hasSub_cons, pfx_trans _ _ _ h1 hstep, Bool.true_or]
      · rw [hasSub_cons, ih h2, Bool.or_true]

/-- A fence occurrence survives undoing `pstrip`. -/
lemma hasSub_mono_pstrip (l : List Char)
    (h : hasSub fence (pstrip l) = true) : hasSub fence l = true :=
  hasSub_mono_dropWhile l (hasSub_mono_rstrip _ h)

/-- A fence does not start at a character other than a backtick. -/
lemma pfx_fence_ne (x : Char) (X : List Char) (h : x ≠ tick) :
    pfx fence (x :: X) = false := by
  show pfx (tick :: [tick, tick]) (x :: X) = false
  rw [pfx, if_neg (fun he => h he.symm)]

/-- A backtick-headed result of `replFence` comes from a backtick head. -/
lemma replFence_head_tick (l : List Char) (h : (replFence l).head? = some tick) :
    l.head? = some tick := by
  match l with
  | [] => simp [replFence] at h
  | [a] => simpa [replFence] using h
  | [a, b] => simpa [replFence] using h
  | a :: b :: c :: rest =>
    by_cases hc : a = tick ∧ b = tick ∧ c = tick
    · simp [hc.1]
    · have he : replFence (a :: b :: c :: rest) = a :: replFence (b :: c :: rest) := by
        simp [replFence, hc]
      rw [he] at h
      simpa using h

/-- A double-backtick prefix of a `replFence` output reflects to the input. -/
lemma replFence_pfx2 (l : List Char) (h : pfx [tick, tick] (replFence l) = true) :
    pfx [tick, tick] l = true := by
  match l with
  | [] => simpa [replFence] using h
  | [a] => simpa [replFence] using h
  | [a, b] => simpa [replFence] using h
  | a :: b :: c :: rest =>
    by_cases hc : a = tick ∧ b = tick ∧ c = tick
    · obtain ⟨rfl, rfl, -⟩ := hc
      simp [pfx]
    · have he : replFence (a :: b :: c :: rest) = a :: replFence (b :: c :: rest) := by
        simp [replFence, hc]
      rw [he] at h
      by_cases hta : tick = a
      · rw [pfx, if_pos hta, pfx_single] at h
        have hb := replFence_head_tick _ h
        simp at hb
        rw [pfx, if_pos hta, pfx_single]
        simp [hb]
      · rw [pfx, if_neg hta] at h
        simp at h

/-- Short strings contain no fence. -/
lemma hasSub_fence_short1 (a : Char) : hasSub fence [a] = false := by
  show (pfx fence [a] || pfx fence []) = false
  have h1 : pfx fence [a] = false := by
    show pfx (tick :: [tick, tick]) [a] = false
    by_cases h : tick = a
    · rw [pfx, if_pos h]; rfl
    · rw [pfx, if_neg h]
  rw [h1]; rfl

/-- Short strings contain no fence. -/
lemma hasSub_fence_short2 (a b : Char) : hasSub fence [a, b] = false := by
  rw [hasSub_cons, hasSub_fence_short1]
  have h1 : pfx fence [a, b] = false := by
    show pfx (tick :: [tick, tick]) (a :: [b]) = false
    by_cases h : tick = a
    · rw [pfx, if_pos h]
      show pfx (tick :: [tick]) [b] = false
      by_cases h2 : tick = b
      · rw [pfx, if_pos h2]; rfl
      · rw [pfx, if_neg h2]
    · rw [pfx, if_neg h]
  rw [h1]; rfl

/-- After `replace('```', '')` no fence remains. -/
lemma replFence_no_fence : ∀ l : List Char, hasSub fence (replFence l) = false := by
  have main : ∀ n, ∀ l : List Char, l.length ≤ n → hasSub fence (replFence l) = false := by
    intro n
    induction n with
    | zero =>
      intro l hl
      have hnil : l = [] := by
        cases l with
        | nil => rfl
        | cons c t => simp at hl
      subst hnil
      simpa [replFence] using hasSub_fence_nil
    | succ n ih =>
      intro l hl
      match l with
      | [] => simpa [replFence] using hasSub_fence_nil
      | [a] => simpa [replFence] using hasSub_fence_short1 a
      | [a, b] => simpa [replFence] using hasSub_fence_short2 a b
      | a :: b :: c :: rest =>
        by_cases hc : a = tick ∧ b = tick ∧ c = tick
        · have he : replFence (a :: b :: c :: rest) = replFence rest := by
            simp [replFence, hc]
          rw [he]
          exact ih rest (by simp at hl; omega)
        · have he : replFence (a :: b :: c :: rest) = a :: replFence (b :: c :: rest) := by
            simp [replFence, hc]
          rw [he, hasSub_cons_false]
          refine ⟨?_, ih (b :: c :: rest) (by simp at hl ⊢; omega)⟩
          by_cases hat : a = tick
          · subst hat
            have hpf : pfx [tick, tick] (replFence (b :: c :: rest)) = false := by
              cases hp : pfx [tick, tick] (replFence (b :: c :: rest)) with
              | false => rfl
              | true =>
                have hbc := replFence_pfx2 _ hp
                have hb : b = tick := by
                  have := pfx_two_head tick tick _ hbc
                  simp at this
                  exact this
                subst hb
                have hcv : c = tick := by
                  rw [pfx, if_pos rfl, pfx_single] at hbc
                  simp at hbc
                  exact hbc
                subst hcv
                exact absurd ⟨rfl, rfl, rfl⟩ hc
            show pfx (tick :: [tick, tick]) (tick :: replFence (b :: c :: rest)) = false
            rw [pfx, if_pos rfl]
            exact hpf
          · exact pfx_fence_ne a _ hat
  intro l
  exact main l.length l le_rfl

/-- A `"```json"` occurrence contains a `"```"` occurrence. -/
lemma hasSub_fenceJson_imp : ∀ l : List Char, hasSub fenceJson l = true →
    hasSub fence l = true := by
  intro l
  induction l with
  | nil => intro h; exact absurd h (by decide)
  | cons c t ih =>
    intro h
    rw [hasSub_cons] at h
    rcases Bool.or_eq_true_iff.mp h with h1 | h2
    · have : pfx fence (c :: t) = true := by
        have he : fence ++ ['j', 's', 'o', 'n'] = fenceJson := rfl
        exact pfx_append_left fence ['j', 's', 'o', 'n'] _ (by rw [he]; exact h1)
      rw [hasSub_cons, this, Bool.true_or]
    · rw [hasSub_cons, ih h2, Bool.or_true]

/-- `replace('```json', '')` is a no-op without an occurrence. -/
lemma replFenceJson_self : ∀ l : List Char, hasSub fenceJson l = false →
    replFenceJson l = l := by
  have main : ∀ n, ∀ l : List Char, l.length ≤ n → hasSub fenceJson l = false →
      replFenceJson l = l := by
    intro n
    induction n with
    | zero =>
      intro l hl _
      have hnil : l = [] := by
        cases l with
        | nil => rfl
        | cons c t => simp at hl
      subst hnil; simp [replFenceJson]
    | succ n ih =>
      intro l hl h
      match l with
      | [] => simp [replFenceJson]
      | [a] => simp [replFenceJson]
      | [a, b] => simp [replFenceJson]
      | [a, b, c] => simp [replFenceJson]
      | [a, b, c, d] => simp [replFenceJson]
      | [a, b, c, d, e] => simp [replFenceJson]
      | [a, b, c, d, e, f] => simp [replFenceJson]
      | a :: b :: c :: d :: e :: f :: g :: rest =>
        by_cases hc : a = tick ∧ b = tick ∧ c = tick ∧ d = 'j' ∧ e = 's' ∧ f = 'o' ∧ g = 'n'
        · exfalso
          obtain ⟨rfl, rfl, rfl, rfl, rfl, rfl, rfl⟩ := hc
          rw [hasSub_cons_false] at h
          have := h.1
          have hp : pfx fenceJson
              (tick :: tick :: tick :: 'j' :: 's' :: 'o' :: 'n' :: rest) = true := by
            rw [pfx_iff_append]
            exact ⟨rest, rfl⟩
          rw [hp] at this
          simp at this
        · have he : replFenceJson (a :: b :: c :: d :: e :: f :: g :: rest) =
              a :: replFenceJson (b :: c :: d :: e :: f :: g :: rest) := by
            simp [replFenceJson, hc]
          rw [he]
          rw [hasSub_cons_false] at h
          rw [ih (b :: c :: d :: e :: f :: g :: rest) (by simp at hl ⊢; omega) h.2]
  intro l
  exact main l.length l le_rfl

/-- `replace('```', '')` is a no-op without an occurrence. -/
lemma replFence_self : ∀ l : List Char, hasSub fence l = false → replFence l = l := by
  have main : ∀ n, ∀ l : List Char, l.length ≤ n → hasSub fence l = false →
      replFence l = l := by
    intro n
    induction n with
    | zero =>
      intro l hl _
      have hnil : l = [] := by
        cases l with
        | nil => rfl
        | cons c t => simp at hl
      subst hnil; simp [replFence]
    | succ n ih =>
      intro l hl h
      match l with
      | [] => simp [replFence]
      | [a] => simp [replFence]
      | [a, b] => simp [replFence]
      | a :: b :: c :: rest =>
        by_cases hc : a = tick ∧ b = tick ∧ c = tick
        · exfalso
          obtain ⟨rfl, rfl, rfl⟩ := hc
          rw [hasSub_cons_false] at h
          have hp : pfx fence (tick :: tick :: tick :: rest) = true := by
            rw [pfx_iff_append]
            exact ⟨rest, rfl⟩
          rw [hp] at h
          simp at h
        · have he : replFence (a :: b :: c :: rest) = a :: replFence (b :: c :: rest) := by
            simp [replFence, hc]
          rw [he]
          rw [hasSub_cons_false] at h
          rw [ih (b :: c :: rest) (by simp at hl ⊢; omega) h.2]
  intro l
  exact main l.length l le_rfl

/-- Characters preserved as two-character escapes are not backticks. -/
lemma keep_ne_tick (d : Char) (h : keepEsc d = true) : d ≠ tick := by
  rw [keepEsc, decide_eq_true_iff] at h
  rcases h with rfl | rfl | rfl | rfl | rfl <;> decide

/-- Hex digits are not backticks. -/
lemma hex_ne_tick (h : Char) (hh : hexDigit h = true) : h ≠ tick := by
  intro he
  rw [he] at hh
  exact absurd hh (by decide)

/-- The double-backtick prefix test reflects through the scan. -/
lemma escScan_pfx2 (rest : List Char) (h : pfx [tick, tick] (escScan rest) = true) :
    pfx [tick, tick] rest = true := by
  cases rest with
  | nil => rw [escScan_nil] at h; exact absurd h (by decide)
  | cons x r =>
    by_cases hx : x = '\\'
    · subst hx
      have hh := pfx_two_head tick tick _ h
      rw [escScan_headQ] at hh
      simp at hh
      exact absurd hh.symm (by decide)
    · rw [escScan_plain x r hx] at h
      by_cases htx : tick = x
      · rw [pfx, if_pos htx, pfx_single, escScan_headQ] at h
        cases r with
        | nil => simp at h
        | cons y s =>
          simp at h
          rw [pfx, if_pos htx, pfx_single]
          simp [h]
      · rw [pfx, if_neg htx] at h
        simp at h

/-- The scan introduces no fence. -/
lemma escScan_no_fence : ∀ l : List Char, hasSub fence l = false →
    hasSub fence (escScan l) = false := by
  have main : ∀ n, ∀ l : List Char, l.length ≤ n → hasSub fence l = false →
      hasSub fence (escScan l) = false := by
    intro n
    induction n with
    | zero =>
      intro l hl _
      have hnil : l = [] := by
        cases l with
        | nil => rfl
        | cons c t => simp at hl
      subst hnil
      rw [escScan_nil]
      exact hasSub_fence_nil
    | succ n ih =>
      intro l hl h
      match l with
      | [] => rw [escScan_nil]; exact hasSub_fence_nil
      | c :: rest =>
        rw [hasSub_cons_false] at h
        obtain ⟨h1, h2⟩ := h
        by_cases hc : c = '\\'
        · subst hc
          match rest with
          | [] => rw [escScan_bs_nil]; decide
          | d :: rest2 =>
            rw [hasSub_cons_false] at h2
            obtain ⟨h2a, h2b⟩ := h2
            by_cases hk : keepEsc d = true
            · rw [escScan_keep d rest2 hk, hasSub_cons_false]
              refine ⟨pfx_fence_ne '\\' _ (by decide), ?_⟩
              rw [hasSub_cons_false]
              exact ⟨pfx_fence_ne d _ (keep_ne_tick d hk),
                ih rest2 (by simp at hl; omega) h2b⟩
            · have hk' : keepEsc d = false := by
                cases hkk : keepEsc d with
                | true => exact absurd hkk hk
                | false => rfl
              by_cases hu : d = 'u'
              · subst hu
                cases hfh : fourHex rest2 with
                | true =>
                  obtain ⟨x1, x2, x3, x4, t, rfl, hhex⟩ := fourHex_shape rest2 hfh
                  rw [hasSub_cons_false, hasSub_cons_false, hasSub_cons_false,
                    hasSub_cons_false] at h2b
                  rw [escScan_uhex x1 x2 x3 x4 t hhex, hasSub_cons_false]
                  refine ⟨pfx_fence_ne '\\' _ (by decide), ?_⟩
                  rw [hasSub_cons_false]
                  refine ⟨pfx_fence_ne 'u' _ (by decide), ?_⟩
                  rw [hasSub_cons_false]
                  have hx1 : hexDigit x1 = true := by
                    simp [Bool.and_eq_true] at hhex; tauto
                  have hx2 : hexDigit x2 = true := by
                    simp [Bool.and_eq_true] at hhex; tauto
                  have hx3 : hexDigit x3 = true := by
                    simp [Bool.and_eq_true] at hhex; tauto
                  have hx4 : hexDigit x4 = true := by
                    simp [Bool.and_eq_true] at hhex; tauto
                  refine ⟨pfx_fence_ne x1 _ (hex_ne_tick x1 hx1), ?_⟩
                  rw [hasSub_cons_false]
                  refine ⟨pfx_fence_ne x2 _ (hex_ne_tick x2 hx2), ?_⟩
                  rw [hasSub_cons_false]
                  refine ⟨pfx_fence_ne x3 _ (hex_ne_tick x3 hx3), ?_⟩
                  rw [hasSub_cons_false]
                  exact ⟨pfx_fence_ne x4 _ (hex_ne_tick x4 hx4),
                    ih t (by simp at hl; omega) h2b.2.2.2.2⟩
                | false =>
                  rw [escScan_double 'u' rest2 hk' (fun _ => hfh), hasSub_cons_false]
                  refine ⟨pfx_fence_ne '\\' _ (by decide), ?_⟩
                  rw [hasSub_cons_false]
                  refine ⟨pfx_fence_ne '\\' _ (by decide), ?_⟩
                  exact ih ('u' :: rest2) (by simp at hl ⊢; omega)
                    (by rw [hasSub_cons_false]; exact ⟨h2a, h2b⟩)
              · rw [escScan_double d rest2 hk' (fun hh => absurd hh hu), hasSub_cons_false]
                refine ⟨pfx_fence_ne '\\' _ (by decide), ?_⟩
                rw [hasSub_cons_false]
                refine ⟨pfx_fence_ne '\\' _ (by decide), ?_⟩
                exact ih (d :: rest2) (by simp at hl ⊢; omega)
                  (by rw [hasSub_cons_false]; exact ⟨h2a, h2b⟩)
        · rw [escScan_plain c rest hc, hasSub_cons_false]
          refine ⟨?_, ih rest (by simp at hl; omega) h2⟩
          by_cases hct : c = tick
          · subst hct
            show pfx (tick :: [tick, tick]) (tick :: escScan rest) = false
            rw [pfx, if_pos rfl]
            cases hp : pfx [tick, tick] (escScan rest) with
            | false => rfl
            | true =>
              exfalso
              have := escScan_pfx2 rest hp
              have hpf : pfx fence (tick :: rest) = true := by
                show pfx (tick :: [tick, tick]) (tick :: rest) = true
                rw [pfx, if_pos rfl]
                exact this
              rw [hpf] at h1
              simp at h1
          · exact pfx_fence_ne c _ hct
  intro l
  exact main l.length l le_rfl

/-- `stripFences` is a no-op on the output of `clean_json_string`. -/
lemma stripFences_clean_fix (l : List Char) :
    stripFences (clean_json_string l) = clean_json_string l := by
  unfold clean_json_string stripFences
  have hMfence : hasSub fence (replFence (replFenceJson (pstrip l))) = false :=
    replFence_no_fence _
  have hufence : hasSub fence (pstrip (replFence (replFenceJson (pstrip l)))) = false := by
    cases hx : hasSub fence (pstrip (replFence (replFenceJson (pstrip l)))) with
    | false => rfl
    | true => rw [hasSub_mono_pstrip _ hx] at hMfence; simp at hMfence
  have hvfence : hasSub fence
      (escScan (pstrip (replFence (replFenceJson (pstrip l))))) = false :=
    escScan_no_fence _ hufence
  have hvfj : hasSub fenceJson
      (escScan (pstrip (replFence (replFenceJson (pstrip l))))) = false := by
    cases hx : hasSub fenceJson
        (escScan (pstrip (replFence (replFenceJson (pstrip l))))) with
    | false => rfl
    | true => rw [hasSub_fenceJson_imp _ hx] at hvfence; simp at hvfence
  rw [pstrip_escScan_pstrip, replFenceJson_self _ hvfj, replFence_self _ hvfence,
    pstrip_escScan_pstrip]

/-! # Claim theorems -/

set_option maxRecDepth 10000 in
/-- C1: the claim that every interleaving of upload, cancel, regenerate and
background completion only produces transitions
`pending→processing→{complete,failed}` or `{pending,processing}→cancelled`,
with the guard checked at write time, FAILS on the upload code path: if the
user cancels and the upload-path background job then runs, the persisted
status moves `cancelled→processing→complete` (both writes are unguarded). -/
theorem c1_upload_path_ignores_cancelled :
    statusTrace attInit c1Events =
      [SStatus.pending, SStatus.cancelled, SStatus.processing, SStatus.complete] ∧
    allowedTransition SStatus.cancelled SStatus.processing = false ∧
    traceAllowed (statusTrace attInit c1Events) = false := by decide

set_option maxRecDepth 10000 in
/-- C2: cancel during `processing` is indeed synchronous and stores the
fixed message, but when the upload-path job's in-flight call then succeeds,
its unguarded write-back overwrites `cancelled` with `complete`, contrary to
the claim that the status remains `cancelled`. -/
theorem c2_cancel_then_success_overwritten :
    runAtt attInit [JobEvent.uploadSetProcessing, JobEvent.cancel] =
      { status := SStatus.cancelled, summary := some cancelMsg } ∧
    (runAtt attInit c2Events).status = SStatus.complete ∧
    SStatus.complete ≠ SStatus.cancelled := by decide

set_option maxRecDepth 40000 in
/-- C3 counterexample: when the summarization adapter call fails, the
exception is caught inside `summarize_pdf` itself, the untruncated string
`"Error generating summary: ..."` is returned as the summary, and the
upload-path job then stores it with status `complete` — not `failed` as the
claim states. -/
theorem c3_counterexample :
    (summarize_pdf true (Except.ok ("pdfbytes".toList)) (AdapterOutcome.exc c3ErrText)).1 =
      errGenPre ++ c3ErrText ∧
    (runAtt attInit
      [JobEvent.uploadSetProcessing,
       JobEvent.uploadFinish
         (summarize_pdf true (Except.ok ("pdfbytes".toList))
           (AdapterOutcome.exc c3ErrText)).1]).status = SStatus.complete ∧
    SStatus.complete ≠ SStatus.failed ∧
    100 < c3ErrText.length := by decide

/-- C3 amended: adapter failures are caught inside
`summarize_pdf`/`summarize_image` (not at the job boundary), returned as the
untruncated text `"Error generating summary: " ++ e`, and the job then
stores that text with status `complete`; only an exception that escapes to
the job boundary (e.g. a database error) is truncated to 100 characters and
stored with status `failed`.  In both cases nothing propagates to the
caller of the upload/regenerate handler (all embedded functions are total). -/
theorem c3_amended (e data : List Char) (a : AttSt) :
    (summarize_pdf true (Except.ok data) (AdapterOutcome.exc e)).1 = errGenPre ++ e ∧
    (summarize_image true (Except.ok data) (AdapterOutcome.exc e)).1 = errGenPre ++ e ∧
    runAtt a
      [JobEvent.uploadSetProcessing,
       JobEvent.uploadFinish (summarize_pdf true (Except.ok data) (AdapterOutcome.exc e)).1] =
      { status := SStatus.complete, summary := some (errGenPre ++ e) } ∧
    stepAtt a (JobEvent.uploadFail e) =
      { status := SStatus.failed, summary := some (failMsgPre ++ e.take 100) } :=
  ⟨rfl, rfl, rfl, rfl⟩

/-- C4 counterexample: `format_latex_for_tiptap` is not idempotent.  On the
input `\[a\[b\]c\]` the first pass leaves a literal `\[` inside the emitted
attribute and a trailing `\]`, and the second pass matches across them. -/
theorem c4_counterexample :
    format_latex_for_tiptap (format_latex_for_tiptap c4Input) ≠
      format_latex_for_tiptap c4Input := by
  simp [format_latex_for_tiptap, c4Input, subPair, subInlineDollar, findClose,
    firstIdx, divPre, divPost, spanPre, spanPost]

set_option maxRecDepth 10000 in
/-- C6 counterexample: when JSON parsing of the repaired model response
fails, the second `chat_with_ai` returns the error-flavored result with the
original note content but `requires_confirmation = False` (line 500), not
`True` as the claim states. -/
theorem c6_counterexample :
    (chat_with_ai_v2 true ("<p>original</p>".toList) (AdapterOutcome.ok c6Raw)
        (fun _ => none)).1 =
      { response_text := parseErrMsg, updated_html := some ("<p>original</p>".toList),
        requires_confirmation := false } ∧
    false ≠ true := by decide

/-- C6 amended: any adapter exception yields a non-raised result with an
error-flavored reply, `updated_html` equal to the original note content and
`requires_confirmation = true`; a repair/parse failure also yields a
non-raised error result with the original content, but with
`requires_confirmation = false`. -/
theorem c6_amended :
    (∀ (nc e : List Char) (parse : List Char → Option ParsedResponse),
        (chat_with_ai_v2 true nc (AdapterOutcome.exc e) parse).1 =
          { response_text := chatExcPre ++ e, updated_html := some nc,
            requires_confirmation := true }) ∧
    (∀ (nc raw : List Char) (parse : List Char → Option ParsedResponse),
        parse (clean_json_string raw) = none →
        (chat_with_ai_v2 true nc (AdapterOutcome.ok raw) parse).1 =
          { response_text := parseErrMsg, updated_html := some nc,
            requires_confirmation := false }) := by
  constructor
  · intro nc e parse; rfl
  · intro nc raw parse h
    simp only [chat_with_ai_v2, Bool.true_eq_false, if_false, h]

/-- Witness for C6: the amended theorem applied at a concrete parse
failure. -/
theorem c6_amended_witness :
    (chat_with_ai_v2 true ("x".toList) (AdapterOutcome.ok c6Raw) (fun _ => none)).1 =
      { response_text := parseErrMsg, updated_html := some ("x".toList),
        requires_confirmation := false } :=
  c6_amended.2 ("x".toList) c6Raw (fun _ => none) rfl

set_option maxRecDepth 10000 in
/-- C8 counterexample: two quick regenerates; the first cycle's stale job
writes after the second cycle has reached `processing`.  The stale write is
accepted by the shared-status guard, the fresh job's own write is then
suppressed, and the single terminal write reflects the FIRST call's
outcome, contrary to the claim. -/
theorem c8_counterexample :
    runAtt attInit c8Events =
      { status := SStatus.complete, summary := some staleSummary } ∧
    terminalWrites (runW attInit c8Events).2 = [SStatus.complete] ∧
    staleSummary ≠ freshSummary := by decide

/-- C8 amended: the guard of the regenerate path compares the shared
persisted status, not a per-job token.  In the interleaving where the stale
job's write runs while the status is `pending` (before the new cycle's
`pending→processing` step) the stale write is suppressed and exactly one
terminal write occurs, reflecting the second call's outcome; in the
interleaving of the counterexample the stale write is accepted instead. -/
theorem c8_amended (s₁ s₂ : List Char) :
    runAtt attInit
      [JobEvent.regenSetProcessing, JobEvent.regenReset, JobEvent.regenFinish s₁,
       JobEvent.regenSetProcessing, JobEvent.regenFinish s₂] =
      { status := SStatus.complete, summary := some s₂ } ∧
    terminalWrites
      (runW attInit
        [JobEvent.regenSetProcessing, JobEvent.regenReset, JobEvent.regenFinish s₁,
         JobEvent.regenSetProcessing, JobEvent.regenFinish s₂]).2 =
      [SStatus.complete] := ⟨rfl, rfl⟩

set_option maxRecDepth 10000 in
/-- C9 counterexample: the chat pipeline's `generate_content` call is made
with no preceding `api_cooldown.wait_if_needed()`: its call trace is a bare
model call, which violates the claim that every adapter call passes the
cooldown gate first. -/
theorem c9_counterexample :
    (chat_with_ai_v2 true ("n".toList) (AdapterOutcome.ok c9Raw) (fun _ => none)).2 =
      [CallEv.modelCall] ∧
    allGated false [CallEv.modelCall] = false := by decide

/-- C9 amended: the attachment-summarization calls
(`summarize_pdf`/`summarize_image`) always acquire the cooldown before the
model call, but the chat pipeline (`chat_with_ai`) performs its model call
without ever touching the cooldown gate. -/
theorem c9_amended :
    (∀ (ak : Bool) (fr : Except (List Char) (List Char)) (o : AdapterOutcome),
        allGated false (summarize_pdf ak fr o).2 = true) ∧
    (∀ (ak : Bool) (fr : Except (List Char) (List Char)) (o : AdapterOutcome),
        allGated false (summarize_image ak fr o).2 = true) ∧
    (∀ (nc : List Char) (o : AdapterOutcome) (p : List Char → Option ParsedResponse),
        ((chat_with_ai_v2 true nc o p).2.contains CallEv.cooldown) = false ∧
        ((chat_with_ai_v2 true nc o p).2.contains CallEv.modelCall) = true) := by
  refine ⟨?_, ?_, ?_⟩
  · rintro (_ | _) (e | b) (e' | t) <;> rfl
  · rintro (_ | _) (e | b) (e' | t) <;> rfl
  · intro nc o p
    cases o with
    | exc e => exact ⟨rfl, rfl⟩
    | ok raw =>
      cases h : p (clean_json_string raw) <;>
        simp [chat_with_ai_v2, h]

/-- C10: because `services.py` binds `chat_with_ai` twice, the module-level
lookup resolves to the second (single-pass) definition, and no invocation of
the chat operation ever calls `execute_google_search`: the dispatched
pipeline's call trace never contains a search call, for any inputs. -/
theorem c10_shadowing :
    lookupBinding ("chat_with_ai".toList) = some ChatImpl.v2 ∧
    (∀ (ak : Bool) (nc : List Char) (first : AdapterOutcome)
        (parse1 : List Char → Except (List Char) DecisionDict)
        (searchFn : List Char → List Char) (second : AdapterOutcome)
        (parse2 : List Char → Except (List Char) ParsedResponse)
        (parseV2 : List Char → Option ParsedResponse),
        ((moduleChat ak nc first parse1 searchFn second parse2 parseV2).2.contains
          CallEv.searchCall) = false) := by
  constructor
  · rfl
  · intro ak nc first parse1 searchFn second parse2 parseV2
    show ((chat_with_ai_v2 ak nc first parseV2).2.contains CallEv.searchCall) = false
    cases ak with
    | false => rfl
    | true =>
      cases first with
      | exc e => rfl
      | ok raw =>
        cases h : parseV2 (clean_json_string raw) <;>
          simp [chat_with_ai_v2, h]

/-- C7: along any lock-serialized sequence of `wait_if_needed` executions,
successive recorded return timestamps are at least `minDelay` apart: the
call sleeps the remaining part of the delay window before recording the new
timestamp, so two `acquire()` returns are never less than `minDelay` apart. -/
theorem c7_gate_spacing (d last : ℚ) (cs : List GateCall)
    (h : gateRun d last cs) :
    List.Chain' (fun a b => a.finishTime + d ≤ b.finishTime) cs := by
  induction cs generalizing last with
  | nil => simp
  | cons c rest ih =>
    simp only [gateRun] at h
    obtain ⟨_hc, hrest⟩ := h
    have htail := ih c.finishTime hrest
    cases rest with
    | nil => simp
    | cons c' rest' =>
      rw [List.chain'_cons]
      refine ⟨?_, htail⟩
      simp only [gateRun] at hrest
      obtain ⟨⟨hle, hif⟩, _⟩ := hrest
      by_cases hlt : c'.enterTime - c.finishTime < d
      · rw [if_pos hlt] at hif; linarith
      · rw [if_neg hlt] at hif
        have hge : d ≤ c'.enterTime - c.finishTime := not_lt.mp hlt
        linarith

/-- Witness for C7: the spacing theorem applied to two concrete serialized
calls with the default delay of 2.5 seconds. -/
theorem c7_gate_spacing_witness :
    List.Chain' (fun a b => a.finishTime + min_delay_default ≤ b.finishTime) c7Calls :=
  c7_gate_spacing min_delay_default 0 c7Calls
    (by norm_num [gateRun, gateStep, c7Calls, min_delay_default])

/-- C4 amended: the structural JSON fix `clean_json_string` is idempotent for
every input string (the claim's second half fails: `format_latex_for_tiptap`
is not idempotent, see the counterexample). -/
theorem c4_amended_clean_idem :
    ∀ l : List Char, clean_json_string (clean_json_string l) = clean_json_string l := by
  intro l
  have h1 : clean_json_string (clean_json_string l) =
      escScan (stripFences (clean_json_string l)) := rfl
  rw [h1, stripFences_clean_fix]
  exact escScan_idem (stripFences l)

/-- C5: the backslash-repair scan of `clean_json_string` follows exactly the
specified rules: a backslash followed by `"`, `\`, `/`, `n` or `r` is kept
as the two-character escape; a backslash followed by `u` and four hex digits
is kept as the six-character unicode escape; every other backslash
(including one followed by `t`, `f`, `b`, any letter starting a LaTeX
command, or a backslash at end of string) is doubled and the following
character is processed again; ordinary characters are copied. -/
theorem c5_scan_rules :
    escScan [] = [] ∧
    (∀ (c : Char) (rest : List Char), c ≠ '\\' →
      escScan (c :: rest) = c :: escScan rest) ∧
    escScan ['\\'] = ['\\', '\\'] ∧
    (∀ (d : Char) (rest : List Char), keepEsc d = true →
      escScan ('\\' :: d :: rest) = '\\' :: d :: escScan rest) ∧
    (∀ (h1 h2 h3 h4 : Char) (rest : List Char),
      (hexDigit h1 && hexDigit h2 && hexDigit h3 && hexDigit h4) = true →
      escScan ('\\' :: 'u' :: h1 :: h2 :: h3 :: h4 :: rest) =
        '\\' :: 'u' :: h1 :: h2 :: h3 :: h4 :: escScan rest) ∧
    (∀ (d : Char) (rest : List Char), keepEsc d = false →
      (d = 'u' → fourHex rest = false) →
      escScan ('\\' :: d :: rest) = '\\' :: '\\' :: escScan (d :: rest)) :=
  ⟨escScan_nil, escScan_plain, escScan_bs_nil, escScan_keep, escScan_uhex, escScan_double⟩

/-- Witness for C5: the rules applied to a doubled escape, a kept
unicode escape with four hex digits, and a kept two-character escape. -/
theorem c5_scan_rules_witness :
    escScan ['\\', 't'] = ['\\', '\\', 't'] ∧
    escScan ['\\', 'u', '1', '2', 'a', 'F'] = ['\\', 'u', '1', '2', 'a', 'F'] ∧
    escScan ['\\', 'n'] = ['\\', 'n'] := by
  obtain ⟨hnil, hplain, _hbs, hkeep, huhex, hdouble⟩ := c5_scan_rules
  refine ⟨?_, ?_, ?_⟩
  · rw [hdouble 't' [] (by decide) (by decide), hplain 't' [] (by decide), hnil]
  · rw [huhex '1' '2' 'a' 'F' [] (by decide), hnil]
  · rw [hkeep 'n' [] (by decide), hnil]
